import Mathlib

/-!
Verification of the input-validation utility (`examples/python/validator.py`).

Strings are modelled as `List Char` (one element per Unicode code point, as
Python's `len` and indexing count code points).  The three validators of the
`Validator` class are translated function by function:

* `validate_email` compiles the pattern `^[a-zA-Z0-9._%+-]+@[a-zA-Z0-9.-]+\.[a-zA-Z]{2,}$`
  and calls `.match`.  With Python's `re` (no MULTILINE), `$` matches at the
  end of the string or just before a single newline at the very end of the
  string; this is captured by `pyMatchDollar`.
* `validate_password` uses `re.search` over the classes `[A-Z]`, `[a-z]` and
  `\d`.  The former two are exactly the ASCII ranges (`Char.isUpper`,
  `Char.isLower`); `\d` matches any Unicode decimal digit, which we model by
  an arbitrary parameter `uniDigit` (every theorem that needs it only assumes
  that `uniDigit` holds on the ASCII digits).
* `validate_username` first tests `username[0].isalpha()` — Python's
  Unicode-aware predicate — and then matches `^[a-zA-Z][a-zA-Z0-9_-]*$`.  The
  built-in `isalpha` is modelled by a parameter `pyIsAlpha`, assumed (when
  needed) to hold on the ASCII letters `[a-zA-Z]`, which is all the proofs
  require of it.
-/

namespace PyValidator

/-- The character class `[a-zA-Z0-9._%+-]` of the local part of the email
pattern. -/
def isLocalChar (c : Char) : Bool :=
  c.isAlpha || c.isDigit || c == '.' || c == '_' || c == '%' || c == '+' || c == '-'

/-- The character class `[a-zA-Z0-9.-]` of the domain part of the email
pattern. -/
def isDomainChar (c : Char) : Bool :=
  c.isAlpha || c.isDigit || c == '.' || c == '-'

/-- The character class `[a-zA-Z0-9_-]` of the tail of the username pattern. -/
def isUsernameTailChar (c : Char) : Bool :=
  c.isAlpha || c.isDigit || c == '_' || c == '-'

/-- Python `re` semantics of a pattern `^body$` used with `.match` and without
`re.MULTILINE`: the match succeeds iff `body` matches the whole string, or the
whole string minus a single final newline (`$` "matches at the end of the
string or just before the newline at the end of the string"). -/
def pyMatchDollar (body : List Char → Bool) (s : List Char) : Bool :=
  body s ||
    (match s.getLast? with
     | some c => c == '\n' && body s.dropLast
     | none => false)

/-- Whole-string match of `[a-zA-Z0-9.-]+\.[a-zA-Z]{2,}` (the part of the
email pattern after the `@`).  Since the TLD class `[a-zA-Z]` contains no dot,
the literal `\.` of the pattern must match the last dot of the string, so the
split is computed at the last dot. -/
def matchDomainTld (rest : List Char) : Bool :=
  match rest.reverse.dropWhile (fun c => c != '.') with
  | [] => false
  | _ :: domRev =>
      decide (2 ≤ (rest.reverse.takeWhile (fun c => c != '.')).length) &&
        (rest.reverse.takeWhile (fun c => c != '.')).all Char.isAlpha &&
        (!domRev.isEmpty) && domRev.all isDomainChar

/-- Whole-string match of the email pattern body
`[a-zA-Z0-9._%+-]+@[a-zA-Z0-9.-]+\.[a-zA-Z]{2,}`.  Since no class of the
pattern contains `@`, the literal `@` must match the first `@` of the string,
so the split is computed at the first non-local character. -/
def emailFullMatch (s : List Char) : Bool :=
  match s.dropWhile isLocalChar with
  | [] => false
  | c :: rest =>
      (c == '@') && (!(s.takeWhile isLocalChar).isEmpty) && matchDomainTld rest

/-- `Validator.validate_email`: `False` on the empty string, otherwise
`bool(EMAIL_PATTERN.match(email))`. -/
def validate_email (s : List Char) : Bool :=
  if s.isEmpty then false
  else pyMatchDollar emailFullMatch s

/-- `Validator.MIN_PASSWORD_LENGTH`. -/
def MIN_PASSWORD_LENGTH : Nat := 8

/-- Message of the empty-password branch. -/
def emptyMsg : String := "Password cannot be empty"

/-- Message of the length branch, an f-string over `MIN_PASSWORD_LENGTH`. -/
def lengthMsg : String :=
  "Password must be at least " ++ toString MIN_PASSWORD_LENGTH ++ " characters"

/-- Message of the missing-uppercase branch. -/
def upperMsg : String := "Password must contain at least one uppercase letter"

/-- Message of the missing-lowercase branch. -/
def lowerMsg : String := "Password must contain at least one lowercase letter"

/-- Message of the missing-digit branch. -/
def digitMsg : String := "Password must contain at least one digit"

/-- Message of the success branch. -/
def validMsg : String := "Password is valid"

/-- `Validator.validate_password`.  `uniDigit` models Python's `\d`
(any Unicode decimal digit); `re.search(r"[A-Z]", …)` and `re.search(r"[a-z]", …)`
are the ASCII tests `Char.isUpper` / `Char.isLower`. -/
def validate_password (uniDigit : Char → Bool) (s : List Char) : Bool × String :=
  if s.isEmpty then (false, emptyMsg)
  else if s.length < MIN_PASSWORD_LENGTH then (false, lengthMsg)
  else if !(s.any Char.isUpper) then (false, upperMsg)
  else if !(s.any Char.isLower) then (false, lowerMsg)
  else if !(s.any uniDigit) then (false, digitMsg)
  else (true, validMsg)

/-- Whole-string match of the username pattern body `[a-zA-Z][a-zA-Z0-9_-]*`. -/
def usernameFullMatch (s : List Char) : Bool :=
  match s with
  | [] => false
  | c :: cs => c.isAlpha && cs.all isUsernameTailChar

/-- `Validator.validate_username`.  `pyIsAlpha` models Python's Unicode-aware
`str.isalpha` on a single character (`username[0].isalpha()`). -/
def validate_username (pyIsAlpha : Char → Bool) (s : List Char) : Bool :=
  match s with
  | [] => false
  | c :: _ =>
      if s.length < 3 ∨ 20 < s.length then false
      else if !(pyIsAlpha c) then false
      else pyMatchDollar usernameFullMatch s

/-- The variant of `Validator.validate_username` considered by the spec, with
the explicit `username[0].isalpha()` check removed. -/
def validate_username_noAlphaCheck (s : List Char) : Bool :=
  match s with
  | [] => false
  | _ :: _ =>
      if s.length < 3 ∨ 20 < s.length then false
      else pyMatchDollar usernameFullMatch s

/-- Declarative reading of the spec's description of the email pattern: one or
more characters from `[A-Za-z0-9._%+-]`, then `@`, then one or more characters
from `[A-Za-z0-9.-]`, then a literal `.`, then two or more alphabetic
characters, covering the entire string. -/
def EmailWhole (s : List Char) : Prop :=
  ∃ loc dom tld : List Char,
    s = loc ++ '@' :: (dom ++ '.' :: tld) ∧
    loc ≠ [] ∧ (∀ c ∈ loc, isLocalChar c = true) ∧
    dom ≠ [] ∧ (∀ c ∈ dom, isDomainChar c = true) ∧
    2 ≤ tld.length ∧ (∀ c ∈ tld, c.isAlpha = true)

/-- The ordered list of password checks as the spec states them: a predicate
that must pass, paired with the reason reported when it is the first to
fail. -/
def passwordChecks (uniDigit : Char → Bool) : List ((List Char → Bool) × String) :=
  [ (fun s => !s.isEmpty, emptyMsg),
    (fun s => decide (MIN_PASSWORD_LENGTH ≤ s.length), lengthMsg),
    (fun s => s.any Char.isUpper, upperMsg),
    (fun s => s.any Char.isLower, lowerMsg),
    (fun s => s.any uniDigit, digitMsg) ]

/-- The reason of the first check in the list that fails on `s`, if any
(checks are tried strictly in list order and evaluation stops at the first
failure). -/
def firstFailure (checks : List ((List Char → Bool) × String)) (s : List Char) :
    Option String :=
  match checks with
  | [] => none
  | (p, m) :: rest => if p s then firstFailure rest s else some m

/-- Declarative reading of the part of the email pattern after the `@`:
one or more domain characters, a literal dot, then two or more letters. -/
def DomainTld (rest : List Char) : Prop :=
  ∃ dom tld : List Char,
    rest = dom ++ '.' :: tld ∧
    dom ≠ [] ∧ (∀ c ∈ dom, isDomainChar c = true) ∧
    2 ≤ tld.length ∧ (∀ c ∈ tld, c.isAlpha = true)

lemma takeWhile_append_cons (p : Char → Bool) (l : List Char) (x : Char)
    (r : List Char) (hl : ∀ c ∈ l, p c = true) (hx : p x = false) :
    ((l ++ x :: r).takeWhile p) = l := by
  induction l with
  | nil => simp [List.takeWhile_cons, hx]
  | cons a t ih =>
      have ha : p a = true := hl a (List.mem_cons_self a t)
      simp [List.takeWhile_cons, ha,
        ih (fun c hc => hl c (List.mem_cons_of_mem _ hc))]

lemma dropWhile_append_cons (p : Char → Bool) (l : List Char) (x : Char)
    (r : List Char) (hl : ∀ c ∈ l, p c = true) (hx : p x = false) :
    ((l ++ x :: r).dropWhile p) = x :: r := by
  induction l with
  | nil => simp [List.dropWhile_cons, hx]
  | cons a t ih =>
      have ha : p a = true := hl a (List.mem_cons_self a t)
      simp [List.dropWhile_cons, ha,
        ih (fun c hc => hl c (List.mem_cons_of_mem _ hc))]

lemma dropWhile_head_false (p : Char → Bool) (l : List Char) (a : Char)
    (t : List Char) (h : l.dropWhile p = a :: t) : p a = false := by
  induction l with
  | nil => simp at h
  | cons b m ih =>
      rw [List.dropWhile_cons] at h
      by_cases hb : p b = true
      · exact ih (by simpa [hb] using h)
      · simp [hb] at h
        obtain ⟨rfl, -⟩ := h
        simpa using hb

lemma matchDomainTld_iff (rest : List Char) :
    matchDomainTld rest = true ↔ DomainTld rest := by
  constructor
  · intro h
    unfold matchDomainTld at h
    cases hd : rest.reverse.dropWhile (fun c => c != '.') with
    | nil => rw [hd] at h; simp at h
    | cons d domRev =>
        rw [hd] at h
        simp only [Bool.and_eq_true, decide_eq_true_eq,
          List.isEmpty_eq_false, List.all_eq_true] at h
        obtain ⟨⟨⟨hlen, halpha⟩, hne⟩, hdom⟩ := h
        have hdot : (d != '.') = false :=
          dropWhile_head_false (fun c => c != '.') rest.reverse d domRev hd
        have hdeq : d = '.' := by simpa using hdot
        subst hdeq
        have hsplit : rest.reverse =
            rest.reverse.takeWhile (fun c => c != '.') ++ '.' :: domRev := by
          rw [← hd, List.takeWhile_append_dropWhile]
        refine ⟨domRev.reverse,
          (rest.reverse.takeWhile (fun c => c != '.')).reverse, ?_, ?_, ?_, ?_, ?_⟩
        · have h2 := congrArg List.reverse hsplit
          simpa [List.reverse_append] using h2
        · simpa using hne
        · intro c hc
          exact hdom c (List.mem_reverse.mp hc)
        · simpa using hlen
        · intro c hc
          exact halpha c (List.mem_reverse.mp hc)
  · rintro ⟨dom, tld, rfl, hdom_ne, hdom, hlen, halpha⟩
    have hrev : (dom ++ '.' :: tld).reverse = tld.reverse ++ '.' :: dom.reverse := by
      simp [List.reverse_append]
    have htld' : ∀ c ∈ tld.reverse, (c != '.') = true := by
      intro c hc
      have hca : c.isAlpha = true := halpha c (List.mem_reverse.mp hc)
      have hcd : c ≠ '.' := by
        intro hceq
        rw [hceq] at hca
        simp [Char.isAlpha, Char.isUpper, Char.isLower] at hca
      simpa using hcd
    have hdotp : (('.' : Char) != '.') = false := by simp
    have h1 : 2 ≤ (tld.reverse).length := by simpa using hlen
    have h2 : (tld.reverse).all Char.isAlpha = true :=
      List.all_eq_true.mpr (fun c hc => halpha c (List.mem_reverse.mp hc))
    have h3 : (dom.reverse).isEmpty = false := by
      simpa using hdom_ne
    have h4 : (dom.reverse).all isDomainChar = true :=
      List.all_eq_true.mpr (fun c hc => hdom c (List.mem_reverse.mp hc))
    unfold matchDomainTld
    rw [hrev, takeWhile_append_cons _ _ _ _ htld' hdotp,
      dropWhile_append_cons _ _ _ _ htld' hdotp]
    simp [h1, h2, h3, h4, hlen]

lemma isLocalChar_at : isLocalChar '@' = false := by decide

lemma emailFullMatch_iff (s : List Char) :
    emailFullMatch s = true ↔ EmailWhole s := by
  constructor
  · intro h
    unfold emailFullMatch at h
    cases hd : s.dropWhile isLocalChar with
    | nil => rw [hd] at h; simp at h
    | cons c rest =>
        rw [hd] at h
        simp only [Bool.and_eq_true, beq_iff_eq] at h
        obtain ⟨⟨hc, hne⟩, hmatch⟩ := h
        subst hc
        have hne' : s.takeWhile isLocalChar ≠ [] := by simpa using hne
        obtain ⟨dom, tld, hrest, hdom_ne, hdom, hlen, halpha⟩ :=
          (matchDomainTld_iff rest).mp hmatch
        refine ⟨s.takeWhile isLocalChar, dom, tld, ?_, hne', ?_, hdom_ne, hdom, hlen, halpha⟩
        · conv_lhs => rw [← List.takeWhile_append_dropWhile (p := isLocalChar) (l := s)]
          rw [hd, hrest]
        · intro c hc
          exact List.mem_takeWhile_imp hc
  · rintro ⟨loc, dom, tld, rfl, hloc_ne, hloc, hdom_ne, hdom, hlen, halpha⟩
    have h1 : matchDomainTld (dom ++ '.' :: tld) = true :=
      (matchDomainTld_iff _).mpr ⟨dom, tld, rfl, hdom_ne, hdom, hlen, halpha⟩
    unfold emailFullMatch
    rw [dropWhile_append_cons _ _ _ _ hloc isLocalChar_at,
      takeWhile_append_cons _ _ _ _ hloc isLocalChar_at]
    simp [h1, hloc_ne]

lemma pyMatchDollar_true_iff (body : List Char → Bool) (s : List Char) :
    pyMatchDollar body s = true ↔
      body s = true ∨ ∃ t, s = t ++ ['\n'] ∧ body t = true := by
  unfold pyMatchDollar
  rcases List.eq_nil_or_concat s with rfl | ⟨t, a, rfl⟩
  · simp
  · rw [List.concat_eq_append, List.getLast?_concat, List.dropLast_concat]
    show (_ || (a == '\n' && body t)) = true ↔ _
    simp only [Bool.or_eq_true, Bool.and_eq_true, beq_iff_eq]
    constructor
    · intro h
      rcases h with h1 | ⟨ha, hb⟩
      · exact Or.inl h1
      · subst ha
        exact Or.inr ⟨t, rfl, hb⟩
    · intro h
      rcases h with h1 | ⟨u, hu, hb⟩
      · exact Or.inl h1
      · have ha : a = '\n' := by
          have h2 := congrArg List.getLast? hu
          simpa [List.getLast?_concat] using h2
        have ht : t = u := by
          have h2 := congrArg List.dropLast hu
          simpa [List.dropLast_concat] using h2
        subst ha; subst ht
        exact Or.inr ⟨rfl, hb⟩

lemma usernameFullMatch_head (c : Char) (cs : List Char)
    (h : usernameFullMatch (c :: cs) = true) : c.isAlpha = true := by
  unfold usernameFullMatch at h
  simp only [Bool.and_eq_true] at h
  exact h.1

lemma pyMatchDollar_username_head_false (c : Char) (cs : List Char)
    (hc : c.isAlpha = false) :
    pyMatchDollar usernameFullMatch (c :: cs) = false := by
  have hbody : ∀ ds, usernameFullMatch (c :: ds) = false := by
    intro ds
    unfold usernameFullMatch
    simp [hc]
  unfold pyMatchDollar
  rw [hbody]
  cases hlast : (c :: cs).getLast? with
  | none => simp at hlast
  | some a =>
      simp only [Bool.false_or]
      cases cs with
      | nil => simp [List.dropLast, usernameFullMatch]
      | cons d ds =>
          have hdl : (c :: d :: ds).dropLast = c :: (d :: ds).dropLast := rfl
          rw [hdl, hbody]
          simp

lemma username_alpha_redundant (pyIsAlpha : Char → Bool)
    (hA : ∀ c, c.isAlpha = true → pyIsAlpha c = true) (s : List Char) :
    validate_username pyIsAlpha s = validate_username_noAlphaCheck s := by
  cases s with
  | nil => rfl
  | cons c cs =>
      unfold validate_username validate_username_noAlphaCheck
      by_cases hlen : (c :: cs).length < 3 ∨ 20 < (c :: cs).length
      · rcases hlen with h | h <;>
          simp only [List.length_cons] at h <;> simp [h]
      · by_cases halpha : pyIsAlpha c = true
        · simp [hlen, halpha]
        · have hc : c.isAlpha = false := by
            cases hca : c.isAlpha with
            | false => rfl
            | true => exact absurd (hA c hca) halpha
          have hmd := pyMatchDollar_username_head_false c cs hc
          simp [hlen, halpha, hmd]

lemma username_noAlpha_iff (s : List Char) :
    validate_username_noAlphaCheck s = true ↔
      3 ≤ s.length ∧ s.length ≤ 20 ∧
        (usernameFullMatch s = true ∨
          ∃ t, s = t ++ ['\n'] ∧ usernameFullMatch t = true) := by
  cases s with
  | nil => simp [validate_username_noAlphaCheck]
  | cons c cs =>
      unfold validate_username_noAlphaCheck
      by_cases hlen : (c :: cs).length < 3 ∨ 20 < (c :: cs).length
      · rw [if_pos hlen]
        constructor
        · intro h; simp at h
        · rintro ⟨h3, h20, -⟩
          rcases hlen with h | h <;> omega
      · have h3 : 3 ≤ (c :: cs).length := by
          rcases Nat.lt_or_ge ((c :: cs).length) 3 with h | h
          · exact absurd (Or.inl h) hlen
          · exact h
        have h20 : (c :: cs).length ≤ 20 := by
          rcases Nat.lt_or_ge 20 ((c :: cs).length) with h | h
          · exact absurd (Or.inr h) hlen
          · exact h
        rw [if_neg hlen, pyMatchDollar_true_iff]
        constructor
        · intro h
          exact ⟨h3, h20, h⟩
        · rintro ⟨-, -, h⟩
          exact h

/-- Claim C1 — `validate_password` applies the five checks in the exact
priority order (empty; length < 8; no uppercase; no lowercase; no decimal
digit), short-circuits on the first failing check and returns `(false, that
check's fixed reason)`; if no check fails it returns
`(true, "Password is valid")`.  `firstFailure` walks the ordered check list
`passwordChecks` and reports the reason of the first check that fails. -/
theorem validate_password_check_order (uniDigit : Char → Bool) (s : List Char) :
    validate_password uniDigit s =
      match firstFailure (passwordChecks uniDigit) s with
      | some m => (false, m)
      | none => (true, validMsg) := by
  by_cases h0 : s.isEmpty = true
  · simp [validate_password, firstFailure, passwordChecks, h0]
  · by_cases h1 : s.length < MIN_PASSWORD_LENGTH
    · have h1' : ¬ (MIN_PASSWORD_LENGTH ≤ s.length) := by omega
      simp [validate_password, firstFailure, passwordChecks, h0, h1, h1']
    · have h1' : MIN_PASSWORD_LENGTH ≤ s.length := by omega
      by_cases h2 : s.any Char.isUpper = true
      · by_cases h3 : s.any Char.isLower = true
        · by_cases h4 : s.any uniDigit = true
          · simp [validate_password, firstFailure, passwordChecks, h0, h1, h1', h2, h3, h4]
          · simp [validate_password, firstFailure, passwordChecks, h0, h1, h1', h2, h3, h4]
        · simp [validate_password, firstFailure, passwordChecks, h0, h1, h1', h2, h3]
      · simp [validate_password, firstFailure, passwordChecks, h0, h1, h1', h2]

/-- Claim C2 (counterexample) — the claim "validate_email returns true iff
the *entire* string matches the pattern" fails on `"user@ex.com\n"`: the
code accepts it (Python's `$` also matches just before a string-final
newline) although the whole string does not match the pattern. -/
theorem validate_email_whole_string_cex :
    validate_email ("user@ex.com\n".data) = true ∧
      ¬ EmailWhole ("user@ex.com\n".data) := by
  constructor
  · decide
  · intro h
    have h2 : emailFullMatch ("user@ex.com\n".data) = true :=
      (emailFullMatch_iff _).mpr h
    have h3 : emailFullMatch ("user@ex.com\n".data) = false := by decide
    rw [h2] at h3
    exact Bool.noConfusion h3

/-- Claim C2 (amended) — `validate_email` returns false on the empty string,
and otherwise returns true iff the whole string matches the pattern
`[A-Za-z0-9._%+-]+@[A-Za-z0-9.-]+\.[A-Za-z]{2,}`, or the string ends in a
single newline and the whole string minus that final newline matches the
pattern (Python's `$` anchor also matches just before a string-final
newline). -/
theorem validate_email_spec (s : List Char) :
    validate_email s = true ↔
      EmailWhole s ∨ ∃ t, s = t ++ ['\n'] ∧ EmailWhole t := by
  unfold validate_email
  by_cases h0 : s.isEmpty = true
  · have hs : s = [] := List.isEmpty_iff.mp h0
    subst hs
    constructor
    · intro h; simp at h
    · rintro (h | ⟨t, ht, -⟩)
      · exact absurd ((emailFullMatch_iff []).mpr h) (by decide)
      · exact absurd ht (by simp)
  · rw [if_neg h0, pyMatchDollar_true_iff]
    constructor
    · rintro (h | ⟨t, ht, hb⟩)
      · exact Or.inl ((emailFullMatch_iff s).mp h)
      · exact Or.inr ⟨t, ht, (emailFullMatch_iff t).mp hb⟩
    · rintro (h | ⟨t, ht, hb⟩)
      · exact Or.inl ((emailFullMatch_iff s).mpr h)
      · exact Or.inr ⟨t, ht, (emailFullMatch_iff t).mpr hb⟩

/-- Claim C3 (counterexample) — the claim "validate_username returns true iff
the string is non-empty, its length is in [3, 20] and the *entire* string
matches `[A-Za-z][A-Za-z0-9_-]*`" fails on `"ab\n"`: the code accepts it
(Python's `$` also matches just before a string-final newline) although the
whole string does not match the regex.  On this all-ASCII input Python's
`str.isalpha` coincides with `Char.isAlpha`, so the model instantiates the
`isalpha` parameter with `Char.isAlpha`. -/
theorem validate_username_whole_string_cex :
    validate_username Char.isAlpha ("ab\n".data) = true ∧
      usernameFullMatch ("ab\n".data) = false :=
  ⟨by decide, by decide⟩

/-- Claim C3 (amended) — for any model `pyIsAlpha` of Python's `str.isalpha`
that holds on the ASCII letters, `validate_username` returns true iff the
length is in [3, 20] (hence the string is non-empty) and the whole string
matches `[A-Za-z][A-Za-z0-9_-]*`, or the string ends in a single newline and
the whole string minus that final newline matches the regex (Python's `$`
anchor also matches just before a string-final newline). -/
theorem validate_username_spec (pyIsAlpha : Char → Bool)
    (hA : ∀ c, c.isAlpha = true → pyIsAlpha c = true) (s : List Char) :
    validate_username pyIsAlpha s = true ↔
      3 ≤ s.length ∧ s.length ≤ 20 ∧
        (usernameFullMatch s = true ∨
          ∃ t, s = t ++ ['\n'] ∧ usernameFullMatch t = true) := by
  rw [username_alpha_redundant pyIsAlpha hA s]
  exact username_noAlpha_iff s

/-- Witness for claim C3's amended theorem at the concrete input
`"user_1"` with `pyIsAlpha := Char.isAlpha`. -/
theorem validate_username_spec_witness :
    validate_username Char.isAlpha ("user_1".data) = true ↔
      3 ≤ ("user_1".data).length ∧ ("user_1".data).length ≤ 20 ∧
        (usernameFullMatch ("user_1".data) = true ∨
          ∃ t, ("user_1".data) = t ++ ['\n'] ∧ usernameFullMatch t = true) :=
  validate_username_spec Char.isAlpha (fun _ h => h) ("user_1".data)

/-- Claim C4 — `validate_username` behaves identically to the variant with
the explicit `username[0].isalpha()` check removed, for any model
`pyIsAlpha` of Python's `str.isalpha` that holds on the ASCII letters (the
regex anchor already enforces a leading ASCII letter). -/
theorem validate_username_alpha_check_redundant (pyIsAlpha : Char → Bool)
    (hA : ∀ c, c.isAlpha = true → pyIsAlpha c = true) (s : List Char) :
    validate_username pyIsAlpha s = validate_username_noAlphaCheck s :=
  username_alpha_redundant pyIsAlpha hA s

/-- Witness for claim C4's theorem at the concrete input `"User-1"` with
`pyIsAlpha := Char.isAlpha`. -/
theorem validate_username_alpha_check_redundant_witness :
    validate_username Char.isAlpha ("User-1".data) =
      validate_username_noAlphaCheck ("User-1".data) :=
  validate_username_alpha_check_redundant Char.isAlpha (fun _ h => h) ("User-1".data)

/-- Claim C5 — `validate_password` is total (the embedding returns a defined
pair for every string) and its reason string is always one of the five fixed
failure messages or `"Password is valid"`. -/
theorem validate_password_messages (uniDigit : Char → Bool) (s : List Char) :
    (validate_password uniDigit s).2 ∈
      [emptyMsg, lengthMsg, upperMsg, lowerMsg, digitMsg, validMsg] := by
  by_cases h0 : s.isEmpty = true <;>
    by_cases h1 : s.length < MIN_PASSWORD_LENGTH <;>
      by_cases h2 : s.any Char.isUpper = true <;>
        by_cases h3 : s.any Char.isLower = true <;>
          by_cases h4 : s.any uniDigit = true <;>
            simp [validate_password, h0, h1, h2, h3, h4]

/-- Claim C6 — `validate_password` returns
`(false, "Password cannot be empty")` iff the input string is empty. -/
theorem validate_password_empty_iff (uniDigit : Char → Bool) (s : List Char) :
    validate_password uniDigit s = (false, emptyMsg) ↔ s = [] := by
  constructor
  · intro h
    cases s with
    | nil => rfl
    | cons c cs =>
        exfalso
        simp only [validate_password, List.isEmpty_cons, Bool.false_eq_true,
          if_false] at h
        split at h
        · exact absurd (congrArg Prod.snd h) (by decide)
        · split at h
          · exact absurd (congrArg Prod.snd h) (by decide)
          · split at h
            · exact absurd (congrArg Prod.snd h) (by decide)
            · split at h
              · exact absurd (congrArg Prod.snd h) (by decide)
              · exact absurd (congrArg Prod.fst h) (by decide)
  · rintro rfl
    rfl

/-- Claim C7 — every password of length exactly 8 containing an uppercase
letter, a lowercase letter and a (ASCII) digit is accepted; every non-empty
password of length at most 7 is rejected with the length reason, whatever
character classes it contains.  `uniDigit` models Python's `\d` and is only
assumed to hold on the ASCII digits. -/
theorem validate_password_boundary (uniDigit : Char → Bool)
    (hd : ∀ c, c.isDigit = true → uniDigit c = true) (s : List Char) :
    (s.length = 8 → s.any Char.isUpper = true → s.any Char.isLower = true →
        s.any Char.isDigit = true → validate_password uniDigit s = (true, validMsg)) ∧
    (s ≠ [] → s.length ≤ 7 → validate_password uniDigit s = (false, lengthMsg)) := by
  constructor
  · intro h8 hu hl hd8
    have hmin : MIN_PASSWORD_LENGTH = 8 := rfl
    have hs_ne : s.isEmpty = false := by
      cases s with
      | nil => simp at h8
      | cons _ _ => simp
    have hlen : ¬ (s.length < MIN_PASSWORD_LENGTH) := by omega
    have hdig : s.any uniDigit = true := by
      obtain ⟨c, hc, hcd⟩ := List.any_eq_true.mp hd8
      exact List.any_eq_true.mpr ⟨c, hc, hd c hcd⟩
    simp [validate_password, hs_ne, hlen, hu, hl, hdig]
  · intro hne h7
    have hmin : MIN_PASSWORD_LENGTH = 8 := rfl
    have hs_ne : s.isEmpty = false := List.isEmpty_eq_false.mpr hne
    have hlen : s.length < MIN_PASSWORD_LENGTH := by omega
    simp [validate_password, hs_ne, hlen]

/-- Witness for claim C7's theorem: `"Passwd12"` (length exactly 8, all three
classes present) is accepted, `"Abcde1"` (length 6) is rejected with the
length reason; `uniDigit := Char.isDigit`. -/
theorem validate_password_boundary_witness :
    validate_password Char.isDigit ("Passwd12".data) = (true, validMsg) ∧
      validate_password Char.isDigit ("Abcde1".data) = (false, lengthMsg) :=
  ⟨(validate_password_boundary Char.isDigit (fun _ h => h) ("Passwd12".data)).1
      (by decide) (by decide) (by decide) (by decide),
   (validate_password_boundary Char.isDigit (fun _ h => h) ("Abcde1".data)).2
      (by decide) (by decide)⟩

/-- Claim C8 — every username of length exactly 3 or exactly 20 made of valid
characters (leading letter, then letters, digits, underscore or hyphen) is
accepted, and every username of length 2 or 21 is rejected, for any model
`pyIsAlpha` of Python's `str.isalpha` that holds on the ASCII letters. -/
theorem validate_username_boundary (pyIsAlpha : Char → Bool)
    (hA : ∀ c, c.isAlpha = true → pyIsAlpha c = true) (s : List Char) :
    ((s.length = 3 ∨ s.length = 20) → usernameFullMatch s = true →
        validate_username pyIsAlpha s = true) ∧
    ((s.length = 2 ∨ s.length = 21) → validate_username pyIsAlpha s = false) := by
  constructor
  · intro hlen hm
    rw [username_alpha_redundant pyIsAlpha hA s]
    have h3 : 3 ≤ s.length := by rcases hlen with h | h <;> omega
    have h20 : s.length ≤ 20 := by rcases hlen with h | h <;> omega
    exact (username_noAlpha_iff s).mpr ⟨h3, h20, Or.inl hm⟩
  · intro hlen
    rw [username_alpha_redundant pyIsAlpha hA s]
    cases hres : validate_username_noAlphaCheck s with
    | false => rfl
    | true =>
        exfalso
        obtain ⟨h3, h20, -⟩ := (username_noAlpha_iff s).mp hres
        rcases hlen with h | h <;> omega

/-- Witness for claim C8's theorem: `"abc"` (length exactly 3, valid
characters) is accepted and `"ab"` (length 2) is rejected;
`pyIsAlpha := Char.isAlpha`. -/
theorem validate_username_boundary_witness :
    validate_username Char.isAlpha ("abc".data) = true ∧
      validate_username Char.isAlpha ("ab".data) = false :=
  ⟨(validate_username_boundary Char.isAlpha (fun _ h => h) ("abc".data)).1
      (by decide) (by decide),
   (validate_username_boundary Char.isAlpha (fun _ h => h) ("ab".data)).2
      (by decide)⟩

/-- Claim C9 — each validator is deterministic: evaluating it twice on the
same input yields the same result (the embedding is a pure function, so this
is definitional). -/
theorem validators_deterministic (uniDigit pyIsAlpha : Char → Bool) (s : List Char) :
    validate_email s = validate_email s ∧
      validate_password uniDigit s = validate_password uniDigit s ∧
      validate_username pyIsAlpha s = validate_username pyIsAlpha s :=
  ⟨rfl, rfl, rfl⟩

/-- Claim C10 (counterexample) — the claim "whenever validate_email accepts
`s` it also accepts `s + "\n"`" fails at `s = "a@b.cd\n"`: the code accepts
`"a@b.cd\n"` (the `$` anchor forgives one final newline) but rejects
`"a@b.cd\n\n"` (it forgives only a single one). -/
theorem validate_email_newline_cex :
    validate_email ("a@b.cd\n".data) = true ∧
      validate_email (("a@b.cd\n".data) ++ ['\n']) = false :=
  ⟨by decide, by decide⟩

/-- Claim C10 (amended) — whenever `validate_email` accepts a string that
does not itself end in a newline, it also accepts that string followed by a
single trailing newline (Python's `$` anchor also matches just before a
string-final newline). -/
theorem validate_email_append_newline (s : List Char)
    (h : validate_email s = true) (hnl : s.getLast? ≠ some '\n') :
    validate_email (s ++ ['\n']) = true := by
  have hfull : emailFullMatch s = true := by
    unfold validate_email at h
    by_cases h0 : s.isEmpty = true
    · rw [if_pos h0] at h
      exact Bool.noConfusion h
    · rw [if_neg h0] at h
      rcases (pyMatchDollar_true_iff _ _).mp h with h1 | ⟨t, rfl, -⟩
      · exact h1
      · exact absurd (List.getLast?_concat t) hnl
  have hne : (s ++ ['\n']).isEmpty = false := by simp
  simp only [validate_email, hne, Bool.false_eq_true, if_false]
  exact (pyMatchDollar_true_iff _ _).mpr (Or.inr ⟨s, rfl, hfull⟩)

/-- Witness for claim C10's amended theorem at the concrete input
`"a@b.ce"`, which is accepted and does not end in a newline. -/
theorem validate_email_append_newline_witness :
    validate_email ("a@b.ce".data ++ ['\n']) = true :=
  validate_email_append_newline ("a@b.ce".data) (by decide) (by decide)

end PyValidator
